import Mathlib

set_option linter.unusedVariables false

/-!
Shallow embedding of the network-visualization and style-transfer notebooks
(`NetworkVisualization-TensorFlow` / `StyleTransfer-TensorFlow`).

Tensors are nested lists of rationals (the source works with real-valued
numpy / TensorFlow arrays; we model the exact arithmetic over `ℚ`).
Operations performed by the host framework's pretrained network and its
automatic differentiation (forward passes, gradients, the Adam update) are
opaque: they enter the embedding as function parameters.  Everything the
notebook itself computes — slicing, concatenation, losses, loops, learning
rates, clipping, the test cells — is translated directly from the source.
-/

namespace NetVis

/-- Scalar entries of all tensors. -/
abbrev Scalar := ℚ

/-- Rank-1 tensor (a vector, e.g. a pixel's channels or a score vector). -/
abbrev Tensor1 := List Scalar

/-- Rank-2 tensor. -/
abbrev Tensor2 := List Tensor1

/-- Rank-3 tensor. -/
abbrev Tensor3 := List Tensor2

/-- Rank-4 tensor (batch × height × width × channels). -/
abbrev Tensor4 := List Tensor3

/-- Shape predicate: a rank-1 tensor with `C` entries. -/
abbrev shaped1 (C : ℕ) (v : Tensor1) : Prop := v.length = C

/-- Shape predicate: a rank-2 tensor of shape `W × C`. -/
abbrev shaped2 (W C : ℕ) (m : Tensor2) : Prop := m.length = W ∧ ∀ v ∈ m, shaped1 C v

/-- Shape predicate: a rank-3 tensor of shape `H × W × C`. -/
abbrev shaped3 (H W C : ℕ) (t : Tensor3) : Prop := t.length = H ∧ ∀ m ∈ t, shaped2 W C m

/-- Shape predicate: a rank-4 tensor of shape `N × H × W × C`. -/
abbrev shaped4 (N H W C : ℕ) (t : Tensor4) : Prop := t.length = N ∧ ∀ m ∈ t, shaped3 H W C m

/-- Entry of a rank-1 tensor (0 outside the range, which shape hypotheses exclude). -/
def at1 (v : Tensor1) (c : ℕ) : Scalar := v.getD c 0

/-- Entry of a rank-2 tensor. -/
def at2 (m : Tensor2) (w c : ℕ) : Scalar := at1 (m.getD w []) c

/-- Entry of a rank-3 tensor. -/
def at3 (t : Tensor3) (h w c : ℕ) : Scalar := at2 (t.getD h []) w c

/-- Entry of a rank-4 tensor. -/
def at4 (t : Tensor4) (n h w c : ℕ) : Scalar := at3 (t.getD n []) h w c

/-! ## `extract_features` (StyleTransfer notebook, provided helper)

```python
features = []
prev_feat = x
for i, layer in enumerate(cnn.net.layers[:-2]):
    next_feat = layer(prev_feat)
    features.append(next_feat)
    prev_feat = next_feat
return features
```
A layer of the pretrained network is an opaque function on tensors. -/

/-- The body of the `for` loop of `extract_features`: feed each layer the previous
layer's output and collect every output. -/
def extractGo (x : Tensor4) : List (Tensor4 → Tensor4) → List Tensor4
  | [] => []
  | layer :: rest => layer x :: extractGo (layer x) rest

/-- `extract_features(x, cnn)` from the source; `layers` stands for `cnn.net.layers`,
and `layers.take (layers.length - 2)` is the Python slice `cnn.net.layers[:-2]`. -/
def extract_features (x : Tensor4) (layers : List (Tensor4 → Tensor4)) : List Tensor4 :=
  extractGo x (layers.take (layers.length - 2))

/-- Sequential application of a list of layers to an input (for stating what
`extract_features` returns). -/
def applyChain (x : Tensor4) (ls : List (Tensor4 → Tensor4)) : Tensor4 :=
  ls.foldl (fun a f => f a) x

/-! ## `style_transfer` optimization loop (StyleTransfer notebook)

```python
initial_lr = 3.0
decayed_lr = 0.1
decay_lr_at = 180
max_iter = 200
step = tf.Variable(0, trainable=False)
boundaries = [decay_lr_at]
values = [initial_lr, decayed_lr]
learning_rate_fn = tf.keras.optimizers.schedules.PiecewiseConstantDecay(boundaries, values)
# Later, whenever we perform an optimization step, we pass in the step.
learning_rate = learning_rate_fn(step)
optimizer = tf.keras.optimizers.Adam(learning_rate=learning_rate)
...
for t in range(max_iter):
    ... loss, grad ...
    optimizer.apply_gradients([(grad, img_var)])
    img_var.assign(tf.clip_by_value(img_var, -1.5, 1.5))
```
The loop never assigns to `step`, and `learning_rate_fn(step)` is evaluated a
single time, before the loop, at `step = 0`; the resulting constant is handed
to Adam.  The Adam update itself is opaque (parameter `update`, which receives
the learning rate the optimizer was constructed with). -/

/-- `tf.keras.optimizers.schedules.PiecewiseConstantDecay([b], [v0, v1])` applied to a
step: `v0` for `step ≤ b` and `v1` for `step > b`. -/
def learning_rate_fn (b : ℕ) (v0 v1 : Scalar) (step : ℕ) : Scalar :=
  if step ≤ b then v0 else v1

/-- `tf.clip_by_value(t, lo, hi)` on a rank-4 tensor: each entry `x` becomes
`min (max x lo) hi`. -/
def clip_by_value (lo hi : Scalar) (t : Tensor4) : Tensor4 :=
  t.map (fun a => a.map (fun b => b.map (fun r => r.map (fun x => min (max x lo) hi))))

/-- The mutable state of the `style_transfer` loop: the `step` variable, the
learning rate the optimizer was constructed with, and the generated image. -/
structure STState where
  step : ℕ
  lr : Scalar
  img : Tensor4

/-- State just before the loop of `style_transfer`: `step = 0`, the learning rate is
`learning_rate_fn(step)` evaluated there, and the image is the starting image
(content image or random noise). -/
def style_transfer_start (img0 : Tensor4) : STState :=
  { step := 0, lr := learning_rate_fn 180 3 (1/10) 0, img := img0 }

/-- One iteration of the `style_transfer` loop: the (opaque) Adam update using the
optimizer's learning rate, followed by `img_var.assign(tf.clip_by_value(img_var, -1.5, 1.5))`.
Neither `step` nor the optimizer's learning rate is touched. -/
def style_transfer_iter (update : Scalar → Tensor4 → Tensor4) (s : STState) : STState :=
  { s with img := clip_by_value (-(3/2)) (3/2) (update s.lr s.img) }

/-- The loop state after `t` iterations of `style_transfer`. -/
def style_transfer_state (update : Scalar → Tensor4 → Tensor4) (img0 : Tensor4) (t : ℕ) :
    STState :=
  (style_transfer_iter update)^[t] (style_transfer_start img0)

/-! ## `make_fooling_image` (NetworkVisualization notebook)

The source stub keeps `X_fooling = X.copy()` and prescribes (docstring, TODO
comment and spec §4.2) a loop that repeatedly takes a normalized-gradient
ascent step on `X_fooling` and stops when the predicted class (argmax of the
score vector) equals `target_y` or an iteration cap is hit.  The forward pass
and the gradient step are opaque (`scores`, `gstep`). -/

/-- `np.argmax` / `tf.math.argmax` on a vector: auxiliary fold carrying the current
index, the best index so far and the best value so far; ties keep the earliest
index. -/
def argmaxAux : List Scalar → ℕ → ℕ → Scalar → ℕ
  | [], _, best, _ => best
  | v :: vs, i, best, bv =>
    if bv < v then argmaxAux vs (i + 1) i v else argmaxAux vs (i + 1) best bv

/-- `np.argmax` / `tf.math.argmax` on a vector: index of the first occurrence of the
maximum (0 on the empty vector, which never arises). -/
def np_argmax : List Scalar → ℕ
  | [] => 0
  | v :: vs => argmaxAux vs 1 0 v

/-- State of `make_fooling_image`: the caller's array `X` and the working copy
`X_fooling`. -/
structure FoolState where
  X : Tensor4
  X_fooling : Tensor4

/-- `X_fooling = X.copy()`: the state entering the fooling loop. -/
def fool_start (X : Tensor4) : FoolState :=
  { X := X, X_fooling := X }

/-- Modelled from the spec: the body of the fooling loop is missing from the source
(the cell keeps only `X_fooling = X.copy()` and a TODO stub).  Spec §4.2: repeatedly
forward-pass the current image, take a normalized-gradient ascent step on it, and
stop when the predicted class equals the target or an iteration cap is hit; only
`X_fooling` is updated, never `X`. -/
def fool_steps (scores : Tensor4 → Tensor1) (gstep : Tensor4 → Tensor4) (target_y : ℕ) :
    ℕ → FoolState → FoolState
  | 0, s => s
  | k + 1, s =>
    if np_argmax (scores s.X_fooling) = target_y then s
    else fool_steps scores gstep target_y k { s with X_fooling := gstep s.X_fooling }

/-- Modelled from the spec: `make_fooling_image(X, target_y, model)` with the model's
forward pass `scores`, the normalized-gradient ascent step `gstep` and the iteration
cap `cap`; returns the final state (both arrays). -/
def make_fooling_image (X : Tensor4) (scores : Tensor4 → Tensor1)
    (gstep : Tensor4 → Tensor4) (target_y cap : ℕ) : FoolState :=
  fool_steps scores gstep target_y cap (fool_start X)

/-! ## `compute_saliency_maps` (NetworkVisualization notebook)

The source cell is a TODO stub; the notebook text and spec §4.1 prescribe:
forward pass, gather the true-class score of each example, take the gradient of
their sum with respect to the input batch (same shape `N × H × W × 3` as the
input), then absolute value and maximum over the 3 color channels. -/

/-- Maximum of the absolute values of a pixel's channel entries (`np.max` of `np.abs`
over the channel axis; the channel list is never empty). -/
def maxAbsChannel (v : Tensor1) : Scalar :=
  match v with
  | [] => 0
  | c :: cs => cs.foldl (fun m x => max m |x|) |c|

/-- Post-processing of the score gradient: absolute value, then maximum across the
color channels, giving one 2-D map per image. -/
def saliency_from_grad (g : Tensor4) : Tensor3 :=
  g.map (fun img => img.map (fun row => row.map maxAbsChannel))

/-- Modelled from the spec: the body of `compute_saliency_maps` is missing from the
source (TODO stub).  The forward pass, the per-example gather of the true-class
score and the automatic-differentiation gradient are the host framework's work and
enter as the opaque `gradient` oracle; the notebook's own post-processing
(absolute value, maximum over channels) is `saliency_from_grad`. -/
def compute_saliency_maps (X : Tensor4) (y : List ℕ)
    (gradient : Tensor4 → List ℕ → Tensor4) : Tensor3 :=
  saliency_from_grad (gradient X y)

/-! ## `gram_matrix` (StyleTransfer notebook)

The source cell is a TODO stub; the notebook text and spec §4.4 prescribe: for a
feature map of shape `(1, H, W, C)` reshaped to `(M, C)` with `M = H·W`,
`G i j = ∑ k, F k i * F k j`, divided by the number of neurons `H·W·C` when
`normalize` is true.  The batch dimension of size 1 is dropped, so the feature
argument is the `H × W × C` tensor. -/

/-- Dot product of columns `i` and `j` of a `(spatial positions × channels)` matrix. -/
def dotCols (M : Tensor2) (i j : ℕ) : Scalar :=
  (M.map (fun r => at1 r i * at1 r j)).sum

/-- Modelled from the spec: the body of `gram_matrix` is missing from the source
(TODO stub).  Reshape the `H × W × C` feature map to `(H·W) × C` (`List.flatten`),
form the matrix of pairwise channel dot-products, and divide by the number of
neurons `H·W·C` when `normalize` is true. -/
def gram_matrix (features : Tensor3) (normalize : Bool) : Tensor2 :=
  let M : Tensor2 := features.flatten
  let H := features.length
  let W := (features.getD 0 []).length
  let C := ((features.getD 0 []).getD 0 []).length
  let G : Tensor2 :=
    (List.range C).map (fun i => (List.range C).map (fun j => dotCols M i j))
  if normalize then G.map (fun row => row.map (fun x => x / ((H * W * C : ℕ) : Scalar)))
  else G

/-! ## `tv_loss` (StyleTransfer notebook)

The source cell is a TODO stub; the notebook text gives the formula
`L_tv = w_t * (∑ c ∑ i<H-1 ∑ j (x (i+1) j c - x i j c)^2
             + ∑ c ∑ i ∑ j<W-1 (x i (j+1) c - x i j c)^2)`
and demands a vectorized implementation.  We embed the vectorized form — whole
shifted tensors are combined elementwise, with no per-pixel indexing — and prove
it equal to the indexed formula. -/

/-- Sum of squared differences of two equally-shaped vectors (elementwise, zipped). -/
def sumSqDiff1 (a b : Tensor1) : Scalar :=
  ((a.zip b).map (fun z => (z.2 - z.1) ^ 2)).sum

/-- Sum of squared differences of two equally-shaped rank-2 tensors. -/
def sumSqDiff2 (a b : Tensor2) : Scalar :=
  ((a.zip b).map (fun z => sumSqDiff1 z.1 z.2)).sum

/-- Vertical variation of one image: squared differences between each row and the
next (the vectorized `img[1:] - img[:-1]`), summed. -/
def tvVert (img : Tensor3) : Scalar :=
  ((img.zip img.tail).map (fun z => sumSqDiff2 z.1 z.2)).sum

/-- Horizontal variation of one image: squared differences between each pixel and
its right neighbour (the vectorized `img[:, 1:] - img[:, :-1]`), summed. -/
def tvHoriz (img : Tensor3) : Scalar :=
  (img.map (fun row => ((row.zip row.tail).map (fun z => sumSqDiff1 z.1 z.2)).sum)).sum

/-- Modelled from the spec: the body of `tv_loss` is missing from the source (TODO
stub).  `tv_weight` times the sum, over the batch, of vertical plus horizontal
squared adjacent-pixel differences, computed from whole shifted tensors. -/
def tv_loss (img : Tensor4) (tv_weight : Scalar) : Scalar :=
  tv_weight * (img.map (fun im => tvVert im + tvHoriz im)).sum

/-! ## Reference checks and the fooling assert (both notebooks)

```python
def rel_error(x,y):
    return np.max(np.abs(x - y) / (np.maximum(1e-8, np.abs(x) + np.abs(y))))

def content_loss_test(correct):
    ...
    error = rel_error(correct, student_output)
    print('Maximum error is {:.3f}'.format(error))
```
`gram_matrix_test`, `style_loss_test` and `tv_loss_test` have the same shape:
they compute `rel_error` and print it; none of the four contains an assert or
a raise.  The fooling cell, by contrast, runs
`assert tf.math.argmax(scores[0]).numpy() == target_y, 'The network is not fooled!'`.
We model a cell run as the value it prints together with whether it raised. -/

/-- `rel_error` on scalars: `|x - y| / max(1e-8, |x| + |y|)`. -/
def rel_error (x y : Scalar) : Scalar :=
  |x - y| / max (1 / 100000000) (|x| + |y|)

/-- `rel_error` on matrices: the maximum over all entries of the elementwise
relative error (`np.max` over the flattened array). -/
def rel_error2 (X Y : Tensor2) : Scalar :=
  (((X.zip Y).map (fun z => (z.1.zip z.2).map (fun q => rel_error q.1 q.2))).flatten).foldl
    max 0

/-- `content_loss_test(correct)` run on a computed student output: the printed
relative error, and whether the cell raised — it only prints, so never. -/
def content_loss_test (correct student : Scalar) : Scalar × Bool :=
  (rel_error correct student, false)

/-- `gram_matrix_test(correct)` run on a computed student Gram matrix: the printed
relative error, and whether the cell raised — it only prints, so never. -/
def gram_matrix_test (correct student : Tensor2) : Scalar × Bool :=
  (rel_error2 correct student, false)

/-- `style_loss_test(correct)` run on a computed student style loss: the printed
relative error, and whether the cell raised — it only prints, so never. -/
def style_loss_test (correct student : Scalar) : Scalar × Bool :=
  (rel_error correct student, false)

/-- `tv_loss_test(correct)` run on a computed student TV loss: the printed relative
error, and whether the cell raised — it only prints, so never. -/
def tv_loss_test (correct student : Scalar) : Scalar × Bool :=
  (rel_error correct student, false)

/-- The fooling assert cell: raises exactly when the argmax of the score vector of
`X_fooling` differs from `target_y`. -/
def fooling_check (scores0 : Tensor1) (target_y : ℕ) : Bool :=
  decide (np_argmax scores0 ≠ target_y)

/-! ## `jitter` (NetworkVisualization notebook)

```python
def jitter(X, ox, oy):
    if ox != 0:
        left = X[:, :, :-ox]
        right = X[:, :, -ox:]
        X = tf.concat([right, left], axis=2)
    if oy != 0:
        top = X[:, :-oy]
        bottom = X[:, -oy:]
        X = tf.concat([bottom, top], axis=1)
    return X
```
Python slice semantics: `l[:j]` takes `j` elements for `j ≥ 0` and `len + j`
elements for `j < 0`; `l[i:]` drops correspondingly. -/

/-- Python slice `l[:j]` (for `|j| ≤ len`, the cases the source exercises). -/
def pyTake {α : Type} (l : List α) (j : ℤ) : List α :=
  if 0 ≤ j then l.take j.toNat else l.take ((l.length : ℤ) + j).toNat

/-- Python slice `l[j:]` (for `|j| ≤ len`, the cases the source exercises). -/
def pyDrop {α : Type} (l : List α) (j : ℤ) : List α :=
  if 0 ≤ j then l.drop j.toNat else l.drop ((l.length : ℤ) + j).toNat

/-- One axis of `jitter`, offset `o ≠ 0`: `concat([l[-o:], l[:-o]])`. -/
def rollOnce {α : Type} (l : List α) (o : ℤ) : List α :=
  pyDrop l (-o) ++ pyTake l (-o)

/-- `jitter(X, ox, oy)` from the source: roll axis 2 (width) by `ox` when `ox ≠ 0`,
then axis 1 (height) by `oy` when `oy ≠ 0`. -/
def jitter (X : Tensor4) (ox oy : ℤ) : Tensor4 :=
  let X1 := if ox ≠ 0 then X.map (fun img => img.map (fun row => rollOnce row ox)) else X
  if oy ≠ 0 then X1.map (fun img => rollOnce img oy) else X1

/-- The channel vector of pixel `(i, j)` of image `n` of a batch (for stating what
`jitter` does to each pixel position). -/
def pix (X : Tensor4) (n i j : ℕ) : Tensor1 :=
  ((X.getD n []).getD i []).getD j []

/-! ## Helper lemmas -/

theorem extractGo_length : ∀ (ls : List (Tensor4 → Tensor4)) (x : Tensor4),
    (extractGo x ls).length = ls.length
  | [], _ => rfl
  | l :: ls, x => by simp [extractGo, extractGo_length ls (l x)]

theorem extractGo_getD : ∀ (ls : List (Tensor4 → Tensor4)) (x : Tensor4) (i : ℕ),
    i < ls.length → (extractGo x ls).getD i [] = applyChain x (ls.take (i + 1))
  | [], _, i, h => absurd h (by simp)
  | l :: ls, x, 0, _ => by simp [extractGo, applyChain]
  | l :: ls, x, i + 1, h => by
    have h1 : i < ls.length := by simpa using h
    simp only [extractGo, List.getD_cons_succ]
    rw [extractGo_getD ls (l x) i h1]
    simp [applyChain]

theorem applyChain_take_succ (x : Tensor4) (layers : List (Tensor4 → Tensor4)) (i : ℕ)
    (h : i < layers.length) :
    applyChain x (layers.take (i + 1)) =
      (layers.getD i (fun t => t)) (applyChain x (layers.take i)) := by
  rw [List.take_succ, List.getElem?_eq_getElem h, List.getD_eq_getElem _ _ h]
  simp only [applyChain, Option.toList_some, List.foldl_append, List.foldl_cons,
    List.foldl_nil]

theorem style_transfer_state_lr (update : Scalar → Tensor4 → Tensor4) (img0 : Tensor4) :
    ∀ t, (style_transfer_state update img0 t).lr = 3
  | 0 => rfl
  | t + 1 => by
    have h := style_transfer_state_lr update img0 t
    rw [style_transfer_state, Function.iterate_succ_apply'] at *
    simpa [style_transfer_iter] using h

theorem fool_steps_X (scores : Tensor4 → Tensor1) (gstep : Tensor4 → Tensor4) (y : ℕ) :
    ∀ (k : ℕ) (s : FoolState), (fool_steps scores gstep y k s).X = s.X
  | 0, _ => rfl
  | k + 1, s => by
    rw [fool_steps]
    split
    · rfl
    · exact fool_steps_X scores gstep y k _

theorem fool_steps_success (scores : Tensor4 → Tensor1) (gstep : Tensor4 → Tensor4) (y : ℕ) :
    ∀ (k : ℕ) (s : FoolState),
      (∃ t ≤ k, np_argmax (scores (gstep^[t] s.X_fooling)) = y) →
      np_argmax (scores ((fool_steps scores gstep y k s).X_fooling)) = y
  | 0, s, h => by
    obtain ⟨t, ht, hy⟩ := h
    interval_cases t
    simpa [fool_steps] using hy
  | k + 1, s, h => by
    rw [fool_steps]
    split
    · assumption
    · rename_i hne
      obtain ⟨t, ht, hy⟩ := h
      match t, ht, hy with
      | 0, _, hy => exact absurd (by simpa using hy) hne
      | t + 1, ht, hy =>
        apply fool_steps_success scores gstep y k
        exact ⟨t, by omega, by simpa [Function.iterate_succ_apply] using hy⟩

theorem fool_steps_run (scores : Tensor4 → Tensor1) (gstep : Tensor4 → Tensor4) (y : ℕ) :
    ∀ (k : ℕ) (s : FoolState),
      ∃ t ≤ k, (fool_steps scores gstep y k s).X_fooling = gstep^[t] s.X_fooling ∧
        (np_argmax (scores (gstep^[t] s.X_fooling)) = y ∨ t = k)
  | 0, s => ⟨0, le_refl 0, by simp [fool_steps]⟩
  | k + 1, s => by
    rw [fool_steps]
    split
    · rename_i hy
      exact ⟨0, Nat.zero_le _, by simpa using hy⟩
    · obtain ⟨t, ht, hrun, hstop⟩ :=
        fool_steps_run scores gstep y k { s with X_fooling := gstep s.X_fooling }
      refine ⟨t + 1, by omega, ?_, ?_⟩
      · simpa [Function.iterate_succ_apply] using hrun
      · rcases hstop with hp | hk
        · exact Or.inl (by simpa [Function.iterate_succ_apply] using hp)
        · exact Or.inr (by omega)

theorem foldl_max_abs_nonneg : ∀ (cs : List Scalar) (m : Scalar), 0 ≤ m →
    0 ≤ cs.foldl (fun a x => max a |x|) m
  | [], _, hm => hm
  | c :: cs, m, hm =>
    foldl_max_abs_nonneg cs (max m |c|) (le_trans hm (le_max_left _ _))

theorem maxAbsChannel_nonneg (v : Tensor1) : 0 ≤ maxAbsChannel v := by
  match v with
  | [] => exact le_refl 0
  | c :: cs => exact foldl_max_abs_nonneg cs |c| (abs_nonneg c)

theorem shaped3_getD {H W C : ℕ} {t : Tensor3} (hs : shaped3 H W C t) {i : ℕ}
    (hi : i < H) : shaped2 W C (t.getD i []) := by
  obtain ⟨hlen, hall⟩ := hs
  have hi2 : i < t.length := by omega
  rw [List.getD_eq_getElem _ _ hi2]
  exact hall _ (List.getElem_mem hi2)

theorem shaped2_getD {W C : ℕ} {m : Tensor2} (hs : shaped2 W C m) {j : ℕ}
    (hj : j < W) : (m.getD j []).length = C := by
  obtain ⟨hlen, hall⟩ := hs
  have hj2 : j < m.length := by omega
  rw [List.getD_eq_getElem _ _ hj2]
  exact hall _ (List.getElem_mem hj2)

theorem shaped4_getD {N H W C : ℕ} {t : Tensor4} (hs : shaped4 N H W C t) {n : ℕ}
    (hn : n < N) : shaped3 H W C (t.getD n []) := by
  obtain ⟨hlen, hall⟩ := hs
  have hn2 : n < t.length := by omega
  rw [List.getD_eq_getElem _ _ hn2]
  exact hall _ (List.getElem_mem hn2)

theorem sum_map_getD {α : Type} (l : List α) (f : α → Scalar) (d : α) :
    (l.map f).sum = ∑ i ∈ Finset.range l.length, f (l.getD i d) := by
  induction l with
  | nil => simp
  | cons a l ih =>
    rw [List.map_cons, List.sum_cons, List.length_cons, Finset.sum_range_succ']
    simp only [List.getD_cons_succ, List.getD_cons_zero]
    rw [ih]
    ring

theorem zip_map_sum {α : Type} (g : α → α → Scalar) (d : α) :
    ∀ (a b : List α), a.length = b.length →
      ((a.zip b).map (fun z => g z.1 z.2)).sum =
        ∑ i ∈ Finset.range a.length, g (a.getD i d) (b.getD i d)
  | [], [], _ => by simp
  | [], _ :: _, h => by simp at h
  | _ :: _, [], h => by simp at h
  | a :: as, b :: bs, h => by
    rw [List.zip_cons_cons, List.map_cons, List.sum_cons, List.length_cons,
      Finset.sum_range_succ']
    simp only [List.getD_cons_succ, List.getD_cons_zero]
    rw [zip_map_sum g d as bs (by simpa using h)]
    ring

theorem zip_tail_sum {α : Type} (g : α → α → Scalar) (d : α) :
    ∀ (l : List α),
      ((l.zip l.tail).map (fun z => g z.1 z.2)).sum =
        ∑ i ∈ Finset.range (l.length - 1), g (l.getD i d) (l.getD (i + 1) d)
  | [] => by simp
  | [_] => by simp
  | a :: b :: t => by
    rw [List.tail_cons, List.zip_cons_cons, List.map_cons, List.sum_cons]
    have h := zip_tail_sum g d (b :: t)
    rw [List.tail_cons] at h
    rw [h]
    have hlen : (a :: b :: t).length - 1 = ((b :: t).length - 1) + 1 := by simp
    rw [hlen, Finset.sum_range_succ']
    simp only [List.getD_cons_succ, List.getD_cons_zero]
    ring

theorem getD_map_range {β : Type} (f : ℕ → β) (d : β) {n i : ℕ} (hi : i < n) :
    ((List.range n).map f).getD i d = f i := by
  have h2 : i < ((List.range n).map f).length := by simpa using hi
  rw [List.getD_eq_getElem _ _ h2]
  simp

theorem sumSqDiff1_eq (a b : Tensor1) (C : ℕ) (ha : a.length = C) (hb : b.length = C) :
    sumSqDiff1 a b = ∑ c ∈ Finset.range C, (b.getD c 0 - a.getD c 0) ^ 2 := by
  rw [sumSqDiff1, zip_map_sum (fun x y => (y - x) ^ 2) (0 : Scalar) a b (by omega), ha]

theorem sumSqDiff2_eq (a b : Tensor2) (W C : ℕ) (ha : shaped2 W C a) (hb : shaped2 W C b) :
    sumSqDiff2 a b = ∑ j ∈ Finset.range W, ∑ c ∈ Finset.range C,
      ((b.getD j []).getD c 0 - (a.getD j []).getD c 0) ^ 2 := by
  rw [sumSqDiff2,
    zip_map_sum (fun x y => sumSqDiff1 x y) ([] : Tensor1) a b (by rw [ha.1, hb.1]), ha.1]
  apply Finset.sum_congr rfl
  intro j hj
  exact sumSqDiff1_eq _ _ C (shaped2_getD ha (Finset.mem_range.mp hj))
    (shaped2_getD hb (Finset.mem_range.mp hj))

theorem triple_sum_comm (n1 n2 n3 : ℕ) (f : ℕ → ℕ → ℕ → Scalar) :
    (∑ i ∈ Finset.range n1, ∑ j ∈ Finset.range n2, ∑ c ∈ Finset.range n3, f i j c) =
      ∑ c ∈ Finset.range n3, ∑ i ∈ Finset.range n1, ∑ j ∈ Finset.range n2, f i j c :=
  calc ∑ i ∈ Finset.range n1, ∑ j ∈ Finset.range n2, ∑ c ∈ Finset.range n3, f i j c
      = ∑ i ∈ Finset.range n1, ∑ c ∈ Finset.range n3, ∑ j ∈ Finset.range n2, f i j c :=
        Finset.sum_congr rfl (fun i _ => Finset.sum_comm)
    _ = ∑ c ∈ Finset.range n3, ∑ i ∈ Finset.range n1, ∑ j ∈ Finset.range n2, f i j c :=
        Finset.sum_comm

theorem getD_map {α β : Type} (f : α → β) (l : List α) (d : β) (e : α) {k : ℕ}
    (hk : k < l.length) : (l.map f).getD k d = f (l.getD k e) := by
  rw [List.getD_eq_getElem _ _ (by simpa using hk), List.getElem_map,
    List.getD_eq_getElem _ _ hk]

theorem getD_rotate {α : Type} (l : List α) (d : α) (n k : ℕ) (hk : k < l.length) :
    (l.rotate n).getD k d = l.getD ((k + n) % l.length) d := by
  have hk2 : k < (l.rotate n).length := by simpa using hk
  rw [List.getD_eq_getElem _ _ hk2,
    List.getD_eq_getElem _ _ (Nat.mod_lt _ (by omega)), List.getElem_rotate]

theorem rollOnce_pos {α : Type} (l : List α) (o : ℕ) (h0 : 0 < o) (hle : o ≤ l.length) :
    rollOnce l (o : ℤ) = l.rotate (l.length - o) := by
  rw [rollOnce, pyDrop, pyTake, if_neg (by omega), if_neg (by omega)]
  have h1 : ((l.length : ℤ) + -(o : ℤ)).toNat = l.length - o := by omega
  rw [h1, List.rotate_eq_drop_append_take (by omega)]

theorem rollOnce_neg {α : Type} (l : List α) (o : ℕ) (hle : o ≤ l.length) :
    rollOnce l (-(o : ℤ)) = l.rotate o := by
  rw [rollOnce, pyDrop, pyTake, neg_neg, if_pos (by omega), if_pos (by omega),
    Int.toNat_natCast, List.rotate_eq_drop_append_take hle]

theorem jitter_eq_rotate {N H W C : ℕ} {X : Tensor4} (hs : shaped4 N H W C X)
    (ox oy : ℕ) (hox : ox < W) (hoy : oy < H) :
    jitter X (ox : ℤ) (oy : ℤ) =
      X.map (fun img => (img.map (fun row => row.rotate (W - ox))).rotate (H - oy)) := by
  obtain ⟨hN, hall⟩ := hs
  simp only [jitter]
  by_cases h0x : (ox : ℤ) ≠ 0
  · rw [if_pos h0x]
    by_cases h0y : (oy : ℤ) ≠ 0
    · rw [if_pos h0y, List.map_map]
      apply List.map_congr_left
      intro img himg
      simp only [Function.comp_apply]
      have h3 := hall img himg
      have hF1len : (img.map (fun row => rollOnce row (ox : ℤ))).length = H := by
        simp [h3.1]
      rw [rollOnce_pos _ oy (by omega) (by rw [hF1len]; omega), hF1len]
      congr 1
      apply List.map_congr_left
      intro row hrow
      have hlen : row.length = W := (h3.2 row hrow).1
      rw [rollOnce_pos row ox (by omega) (by omega), hlen]
    · rw [if_neg h0y]
      apply List.map_congr_left
      intro img himg
      have h3 := hall img himg
      have hoy0 : oy = 0 := by omega
      subst hoy0
      rw [Nat.sub_zero]
      have hRlen : (img.map (fun row => row.rotate (W - ox))).length = H := by
        simp [h3.1]
      rw [← hRlen, List.rotate_length]
      apply List.map_congr_left
      intro row hrow
      have hlen : row.length = W := (h3.2 row hrow).1
      rw [rollOnce_pos row ox (by omega) (by omega), hlen]
  · rw [if_neg h0x]
    have hox0 : ox = 0 := by omega
    subst hox0
    by_cases h0y : (oy : ℤ) ≠ 0
    · rw [if_pos h0y]
      apply List.map_congr_left
      intro img himg
      have h3 := hall img himg
      rw [Nat.sub_zero]
      have himgid : img.map (fun row => row.rotate W) = img := by
        have hid : img.map (fun row => row.rotate W) = img.map id :=
          List.map_congr_left (fun row hrow => by
            rw [show W = row.length from ((h3.2 row hrow).1).symm, List.rotate_length,
              id_eq])
        rw [hid, List.map_id]
      rw [himgid, rollOnce_pos img oy (by omega) (by rw [h3.1]; omega), h3.1]
    · rw [if_neg h0y]
      have hoy0 : oy = 0 := by omega
      subst hoy0
      symm
      rw [Nat.sub_zero, Nat.sub_zero]
      have houter : X.map (fun img => (img.map (fun row => row.rotate W)).rotate H) =
          X.map id := by
        apply List.map_congr_left
        intro img himg
        have h3 := hall img himg
        have himgid : img.map (fun row => row.rotate W) = img := by
          have hid : img.map (fun row => row.rotate W) = img.map id :=
            List.map_congr_left (fun row hrow => by
              rw [show W = row.length from ((h3.2 row hrow).1).symm, List.rotate_length,
                id_eq])
          rw [hid, List.map_id]
        rw [himgid, show H = img.length from h3.1.symm, List.rotate_length, id_eq]
      rw [houter, List.map_id]

theorem jitter_neg_eq_rotate {N H W C : ℕ} {X : Tensor4} (hs : shaped4 N H W C X)
    (ox oy : ℕ) (hox : ox ≤ W) (hoy : oy ≤ H) :
    jitter X (-(ox : ℤ)) (-(oy : ℤ)) =
      X.map (fun img => (img.map (fun row => row.rotate ox)).rotate oy) := by
  obtain ⟨hN, hall⟩ := hs
  simp only [jitter]
  by_cases h0x : -(ox : ℤ) ≠ 0
  · rw [if_pos h0x]
    by_cases h0y : -(oy : ℤ) ≠ 0
    · rw [if_pos h0y, List.map_map]
      apply List.map_congr_left
      intro img himg
      simp only [Function.comp_apply]
      have h3 := hall img himg
      have hF1len : (img.map (fun row => rollOnce row (-(ox : ℤ)))).length = H := by
        simp [h3.1]
      rw [rollOnce_neg _ oy (by rw [hF1len]; omega)]
      congr 1
      apply List.map_congr_left
      intro row hrow
      have hlen : row.length = W := (h3.2 row hrow).1
      rw [rollOnce_neg row ox (by omega)]
    · rw [if_neg h0y]
      have hoy0 : oy = 0 := by omega
      subst hoy0
      apply List.map_congr_left
      intro img himg
      have h3 := hall img himg
      rw [List.rotate_zero]
      apply List.map_congr_left
      intro row hrow
      have hlen : row.length = W := (h3.2 row hrow).1
      rw [rollOnce_neg row ox (by omega)]
  · rw [if_neg h0x]
    have hox0 : ox = 0 := by omega
    subst hox0
    by_cases h0y : -(oy : ℤ) ≠ 0
    · rw [if_pos h0y]
      apply List.map_congr_left
      intro img himg
      have h3 := hall img himg
      have himgid : img.map (fun row => row.rotate 0) = img := by
        have hid : img.map (fun row => row.rotate 0) = img.map id :=
          List.map_congr_left (fun row _ => by rw [List.rotate_zero, id_eq])
        rw [hid, List.map_id]
      rw [himgid, rollOnce_neg img oy (by rw [h3.1]; omega)]
    · rw [if_neg h0y]
      have hoy0 : oy = 0 := by omega
      subst hoy0
      symm
      have houter : X.map (fun img => (img.map (fun row => row.rotate 0)).rotate 0) =
          X.map id := by
        apply List.map_congr_left
        intro img himg
        have himgid : img.map (fun row => row.rotate 0) = img := by
          have hid : img.map (fun row => row.rotate 0) = img.map id :=
            List.map_congr_left (fun row _ => by rw [List.rotate_zero, id_eq])
          rw [hid, List.map_id]
        rw [List.rotate_zero, himgid, id_eq]
      rw [houter, List.map_id]

theorem shaped4_map_rotate {N H W C : ℕ} {X : Tensor4} (hs : shaped4 N H W C X)
    (a b : ℕ) :
    shaped4 N H W C
      (X.map (fun img => (img.map (fun row => row.rotate a)).rotate b)) := by
  obtain ⟨hN, hall⟩ := hs
  refine ⟨by simp [hN], ?_⟩
  intro m hm
  simp only [List.mem_map] at hm
  obtain ⟨img, himg, rfl⟩ := hm
  have h3 := hall img himg
  refine ⟨by simp [h3.1], ?_⟩
  intro row hrow
  rw [List.mem_rotate] at hrow
  simp only [List.mem_map] at hrow
  obtain ⟨row0, hrow0, rfl⟩ := hrow
  have h2 := h3.2 row0 hrow0
  refine ⟨by simp [h2.1], ?_⟩
  intro v hv
  rw [List.mem_rotate] at hv
  exact h2.2 v hv

theorem jitter_inv {N H W C : ℕ} {X : Tensor4} (hs : shaped4 N H W C X)
    (ox oy : ℕ) (hox : ox < W) (hoy : oy < H) :
    jitter (jitter X (ox : ℤ) (oy : ℤ)) (-(ox : ℤ)) (-(oy : ℤ)) = X := by
  rw [jitter_eq_rotate hs ox oy hox hoy,
    jitter_neg_eq_rotate (shaped4_map_rotate hs (W - ox) (H - oy)) ox oy (by omega)
      (by omega),
    List.map_map]
  obtain ⟨hN, hall⟩ := hs
  have hcongr : X.map ((fun img => (img.map (fun row => row.rotate ox)).rotate oy) ∘
      (fun img => (img.map (fun row => row.rotate (W - ox))).rotate (H - oy))) =
      X.map id := by
    apply List.map_congr_left
    intro img himg
    have h3 := hall img himg
    simp only [Function.comp_apply, id_eq]
    rw [List.map_rotate, List.rotate_rotate]
    have hsum : H - oy + oy = H := by omega
    rw [hsum, List.map_map]
    have hinner : img.map ((fun row => row.rotate ox) ∘ (fun row => row.rotate (W - ox)))
        = img.map id := by
      apply List.map_congr_left
      intro row hrow
      have hW := (h3.2 row hrow).1
      simp only [Function.comp_apply, id_eq]
      rw [List.rotate_rotate]
      have hsum2 : W - ox + ox = W := by omega
      rw [hsum2, ← hW, List.rotate_length]
    rw [hinner, List.map_id, show H = img.length from h3.1.symm, List.rotate_length]
  rw [hcongr, List.map_id]

theorem jitter_entry {N H W C : ℕ} {X : Tensor4} (hs : shaped4 N H W C X)
    (ox oy : ℕ) (hox : ox < W) (hoy : oy < H) (n i j : ℕ)
    (hn : n < N) (hi : i < H) (hj : j < W) :
    pix (jitter X (ox : ℤ) (oy : ℤ)) n i j =
      pix X n ((i + (H - oy)) % H) ((j + (W - ox)) % W) := by
  rw [jitter_eq_rotate hs ox oy hox hoy, pix, pix]
  have h3 := shaped4_getD hs hn
  rw [getD_map _ _ _ ([] : Tensor3) (by omega : n < X.length)]
  have hmlen : ((X.getD n []).map (fun row => row.rotate (W - ox))).length = H := by
    rw [List.length_map]
    exact h3.1
  rw [getD_rotate _ _ _ i (by rw [hmlen]; omega), hmlen]
  have hi2 : (i + (H - oy)) % H < H := Nat.mod_lt _ (by omega)
  rw [getD_map _ _ _ ([] : Tensor2) (by rw [h3.1]; omega)]
  have h2 := shaped3_getD h3 hi2
  rw [getD_rotate _ _ _ j (by rw [h2.1]; omega), h2.1]

/-! ## Claim theorems -/

/-- C5: the claim reads the learning-rate setup of `style_transfer` as a schedule that
applies rate 3.0 for iterations `t < 180` and 0.1 for `t ≥ 180`.  The code builds that
schedule but evaluates it once, before the loop, at `step = 0`, and never assigns to
`step`; the optimizer therefore uses the constant rate 3.0 at every one of the 200
iterations — in particular at every `t ≥ 180`, where 3.0 is not the claimed 0.1. -/
theorem style_transfer_lr_bug :
    (∀ (update : Scalar → Tensor4 → Tensor4) (img0 : Tensor4) (t : ℕ),
      (style_transfer_state update img0 t).lr = 3) ∧ (3 : Scalar) ≠ 1 / 10 := by
  refine ⟨fun update img0 t => style_transfer_state_lr update img0 t, by norm_num⟩

/-- C8: after the clip step of every iteration `t` of the `style_transfer` loop,
every pixel value of the generated image lies in `[-1.5, 1.5]`, whatever the
optimizer update did. -/
theorem style_transfer_clip_invariant (update : Scalar → Tensor4 → Tensor4)
    (img0 : Tensor4) (t : ℕ) :
    ∀ a ∈ (style_transfer_state update img0 (t + 1)).img, ∀ b ∈ a, ∀ r ∈ b, ∀ x ∈ r,
      -(3/2) ≤ x ∧ x ≤ 3/2 := by
  rw [style_transfer_state, Function.iterate_succ_apply']
  intro a ha b hb r hr x hx
  simp only [style_transfer_iter, clip_by_value, List.mem_map] at ha
  obtain ⟨a0, -, rfl⟩ := ha
  simp only [List.mem_map] at hb
  obtain ⟨b0, -, rfl⟩ := hb
  simp only [List.mem_map] at hr
  obtain ⟨r0, -, rfl⟩ := hr
  simp only [List.mem_map] at hx
  obtain ⟨x0, -, rfl⟩ := hx
  exact ⟨le_min (le_max_right _ _) (by norm_num), min_le_right _ _⟩

/-- Witness for C8 at a concrete run: one image entry 7, identity update, first
iteration; the clipped entry 3/2 lies in the range. -/
theorem style_transfer_clip_invariant_wit :
    -(3/2 : Scalar) ≤ min (max 7 (-(3/2))) (3/2) ∧
      min (max (7 : Scalar) (-(3/2))) (3/2) ≤ 3/2 :=
  style_transfer_clip_invariant (fun _ i => i) [[[[7]]]] 0
    [[[min (max 7 (-(3/2))) (3/2)]]]
    (by simp [style_transfer_state, style_transfer_start, style_transfer_iter,
      clip_by_value])
    [[min (max 7 (-(3/2))) (3/2)]] (List.mem_singleton.mpr rfl)
    [min (max 7 (-(3/2))) (3/2)] (List.mem_singleton.mpr rfl)
    (min (max 7 (-(3/2))) (3/2)) (List.mem_singleton.mpr rfl)

/-- C9: `extract_features(x, cnn)` returns one feature map per layer of
`cnn.net.layers[:-2]`; entry `i` is the sequential application of the first `i + 1`
retained layers to `x` — so entry 0 is the first layer applied to `x` (not `x`
itself), and each entry `i + 1` is layer `i + 1` applied to entry `i`. -/
theorem extract_features_spec (x : Tensor4) (layers : List (Tensor4 → Tensor4)) :
    (extract_features x layers).length = layers.length - 2 ∧
    (∀ i, i < layers.length - 2 →
      (extract_features x layers).getD i [] = applyChain x (layers.take (i + 1))) ∧
    (∀ i, i + 1 < layers.length - 2 →
      (extract_features x layers).getD (i + 1) [] =
        (layers.getD (i + 1) (fun t => t)) ((extract_features x layers).getD i [])) := by
  have hlen : (extract_features x layers).length = layers.length - 2 := by
    rw [extract_features, extractGo_length]
    simp [List.length_take]
  have hget : ∀ i, i < layers.length - 2 →
      (extract_features x layers).getD i [] = applyChain x (layers.take (i + 1)) := by
    intro i hi
    rw [extract_features, extractGo_getD _ _ _ (by simp [List.length_take]; omega)]
    rw [List.take_take, Nat.min_eq_left (by omega)]
  refine ⟨hlen, hget, ?_⟩
  intro i hi
  rw [hget (i + 1) hi, hget i (by omega),
    applyChain_take_succ x layers (i + 1) (by omega)]

/-- Witness for C9 at a concrete input: four layers on a one-entry tensor, of which
the slice keeps the first two; the two features are the chained applications. -/
theorem extract_features_spec_wit :
    (extract_features [[[[1]]]]
      [fun t => t ++ t, fun t => t ++ t, fun _ => [], fun _ => []]).length = 2 ∧
    ((0 : ℕ) < 2 → (extract_features [[[[1]]]]
      [fun t => t ++ t, fun t => t ++ t, fun _ => [], fun _ => []]).getD 0 [] =
        applyChain [[[[1]]]] [fun t => t ++ t]) := by
  have h := extract_features_spec [[[[1]]]]
    [fun t => t ++ t, fun t => t ++ t, fun _ => [], fun _ => []]
  exact ⟨h.1, fun _ => by simpa using h.2.1 0 (by norm_num)⟩

/-- C1: from an `N × H × W × 3` input batch (and a score gradient of the same shape,
which is what automatic differentiation returns), `compute_saliency_maps` produces
one 2-D map per image — shape `N × H × W`, no channel dimension — with every entry
non-negative. -/
theorem compute_saliency_maps_spec (X : Tensor4) (y : List ℕ)
    (gradient : Tensor4 → List ℕ → Tensor4) (N H W : ℕ)
    (hX : shaped4 N H W 3 X) (hg : shaped4 N H W 3 (gradient X y)) :
    (compute_saliency_maps X y gradient).length = N ∧
    (∀ m ∈ compute_saliency_maps X y gradient, m.length = H ∧ ∀ r ∈ m, r.length = W) ∧
    (∀ m ∈ compute_saliency_maps X y gradient, ∀ r ∈ m, ∀ x ∈ r, 0 ≤ x) := by
  obtain ⟨hNlen, hrest⟩ := hg
  refine ⟨?_, ?_, ?_⟩
  · simp [compute_saliency_maps, saliency_from_grad, hNlen]
  · intro m hm
    simp only [compute_saliency_maps, saliency_from_grad, List.mem_map] at hm
    obtain ⟨img, himg, rfl⟩ := hm
    obtain ⟨hH, hrows⟩ := hrest img himg
    refine ⟨by simpa using hH, ?_⟩
    intro r hr
    simp only [List.mem_map] at hr
    obtain ⟨row, hrow, rfl⟩ := hr
    simpa using (hrows row hrow).1
  · intro m hm r hr x hx
    simp only [compute_saliency_maps, saliency_from_grad, List.mem_map] at hm
    obtain ⟨img, -, rfl⟩ := hm
    simp only [List.mem_map] at hr
    obtain ⟨row, -, rfl⟩ := hr
    simp only [List.mem_map] at hx
    obtain ⟨v, -, rfl⟩ := hx
    exact maxAbsChannel_nonneg v

/-- Witness fixture for C1: a concrete `1 × 1 × 1 × 3` input batch. -/
def wXC1 : Tensor4 := [[[[1, 2, 3]]]]

/-- Witness fixture for C1: a concrete gradient oracle of the same shape. -/
def wGradC1 : Tensor4 → List ℕ → Tensor4 := fun _ _ => [[[[-5, 2, 1]]]]

/-- Witness for C1 at a concrete input: the nonneg / shape conclusion holds for the
`1 × 1 × 1 × 3` batch and gradient. -/
theorem compute_saliency_maps_spec_wit :
    (shaped4 1 1 1 3 wXC1 ∧ shaped4 1 1 1 3 (wGradC1 wXC1 [0])) ∧
    ((compute_saliency_maps wXC1 [0] wGradC1).length = 1 ∧
      (∀ m ∈ compute_saliency_maps wXC1 [0] wGradC1,
        m.length = 1 ∧ ∀ r ∈ m, r.length = 1) ∧
      (∀ m ∈ compute_saliency_maps wXC1 [0] wGradC1, ∀ r ∈ m, ∀ x ∈ r, 0 ≤ x)) :=
  ⟨⟨by decide, by decide⟩,
    compute_saliency_maps_spec wXC1 [0] wGradC1 1 1 1 (by decide) (by decide)⟩

/-- C2: provided some iterate of the ascent step within the cap is classified as the
target (as the demonstrated example, image 0 with target class 6, is reported to
be), `make_fooling_image` terminates with an image the model classifies as the
target; unconditionally the result is some iterate `t ≤ cap` of the ascent step,
reached either because the predicted class equals the target or because the cap was
hit. -/
theorem make_fooling_image_spec (X : Tensor4) (scores : Tensor4 → Tensor1)
    (gstep : Tensor4 → Tensor4) (target_y cap : ℕ)
    (h : ∃ t ≤ cap, np_argmax (scores (gstep^[t] X)) = target_y) :
    np_argmax (scores ((make_fooling_image X scores gstep target_y cap).X_fooling)) =
      target_y ∧
    ∃ t ≤ cap,
      (make_fooling_image X scores gstep target_y cap).X_fooling = gstep^[t] X ∧
      (np_argmax (scores (gstep^[t] X)) = target_y ∨ t = cap) := by
  refine ⟨?_, ?_⟩
  · exact fool_steps_success scores gstep target_y cap (fool_start X) h
  · exact fool_steps_run scores gstep target_y cap (fool_start X)

/-- Witness fixture for C2: a concrete score function (two classes, driven by the
sole pixel). -/
def wScoresC2 : Tensor4 → Tensor1 := fun X => [1 - at4 X 0 0 0 0, at4 X 0 0 0 0]

/-- Witness fixture for C2: a concrete ascent step (adds 1 to the sole pixel). -/
def wGstepC2 : Tensor4 → Tensor4 := fun X => [[[[at4 X 0 0 0 0 + 1]]]]

/-- Witness for C2 at a concrete input: one ascent step flips the argmax to the
target class 1, within a cap of 100. -/
theorem make_fooling_image_spec_wit :
    (∃ t ≤ 100, np_argmax (wScoresC2 (wGstepC2^[t] [[[[0]]]])) = 1) ∧
    (np_argmax
        (wScoresC2 ((make_fooling_image [[[[0]]]] wScoresC2 wGstepC2 1 100).X_fooling)) =
      1 ∧
    ∃ t ≤ 100,
      (make_fooling_image [[[[0]]]] wScoresC2 wGstepC2 1 100).X_fooling =
        wGstepC2^[t] [[[[0]]]] ∧
      (np_argmax (wScoresC2 (wGstepC2^[t] [[[[0]]]])) = 1 ∨ t = 100)) :=
  ⟨⟨1, by norm_num,
      by norm_num [wScoresC2, wGstepC2, np_argmax, argmaxAux, at4, at3, at2, at1]⟩,
    make_fooling_image_spec [[[[0]]]] wScoresC2 wGstepC2 1 100
      ⟨1, by norm_num,
        by norm_num [wScoresC2, wGstepC2, np_argmax, argmaxAux, at4, at3, at2, at1]⟩⟩

/-- C3: on an `H × W × C` feature map (batch dimension of size 1 dropped),
`gram_matrix` with `normalize = true` returns a `C × C` matrix whose `(i, j)` entry is
the dot product, over all `H·W` spatial positions, of channel `i` with channel `j`,
divided by `H·W·C`.  (The numeric comparison against the precomputed `.npz` reference
on the style test image lives outside the embedding: it needs the pretrained network
and data files absent from the repository.) -/
theorem gram_matrix_spec (F : Tensor3) (H W C : ℕ) (hs : shaped3 H W C F)
    (hH : 0 < H) (hW : 0 < W) :
    (gram_matrix F true).length = C ∧
    (∀ row ∈ gram_matrix F true, row.length = C) ∧
    ∀ i < C, ∀ j < C,
      at2 (gram_matrix F true) i j =
        (∑ h ∈ Finset.range H, ∑ w ∈ Finset.range W, at3 F h w i * at3 F h w j) /
          ((H * W * C : ℕ) : Scalar) := by
  have hHdim : F.length = H := hs.1
  have hWdim : (F.getD 0 []).length = W := (shaped3_getD hs hH).1
  have hCdim : ((F.getD 0 []).getD 0 []).length = C := shaped2_getD (shaped3_getD hs hH) hW
  have hgm : gram_matrix F true =
      ((List.range C).map (fun i => (List.range C).map (fun j => dotCols F.flatten i j))).map
        (fun row => row.map (fun x => x / ((H * W * C : ℕ) : Scalar))) := by
    simp only [gram_matrix, hHdim, hWdim, hCdim, if_true]
  have hlen : (gram_matrix F true).length = C := by rw [hgm]; simp
  have hrows : ∀ row ∈ gram_matrix F true, row.length = C := by
    rw [hgm]
    intro row hrow
    simp only [List.mem_map] at hrow
    obtain ⟨r0, ⟨i0, hi0, rfl⟩, rfl⟩ := hrow
    simp
  refine ⟨hlen, hrows, ?_⟩
  intro i hi j hj
  have hdot : dotCols F.flatten i j =
      ∑ h ∈ Finset.range H, ∑ w ∈ Finset.range W, at3 F h w i * at3 F h w j := by
    rw [dotCols, List.map_flatten, List.sum_flatten, List.map_map,
      sum_map_getD F _ [], hHdim]
    apply Finset.sum_congr rfl
    intro h hh
    have hh2 : h < H := Finset.mem_range.mp hh
    have hrowlen : (F.getD h []).length = W := (shaped3_getD hs hh2).1
    simp only [Function.comp_apply]
    rw [sum_map_getD (F.getD h []) _ [], hrowlen]
    apply Finset.sum_congr rfl
    intro w hw
    simp [at3, at2, at1]
  rw [at2, at1, hgm, List.map_map, getD_map_range _ _ hi]
  simp only [Function.comp_apply]
  rw [List.map_map, getD_map_range _ _ hj]
  simp only [Function.comp_apply]
  rw [hdot]

/-- Witness fixture for C3: a concrete `1 × 2 × 2` feature map. -/
def wFeatsC3 : Tensor3 := [[[1, 2], [3, 4]]]

/-- Witness for C3 at a concrete input: the `1 × 2 × 2` feature map satisfies the
shape hypotheses and the normalized-Gram conclusion. -/
theorem gram_matrix_spec_wit :
    (shaped3 1 2 2 wFeatsC3 ∧ 0 < 1 ∧ 0 < 2) ∧
    ((gram_matrix wFeatsC3 true).length = 2 ∧
      (∀ row ∈ gram_matrix wFeatsC3 true, row.length = 2) ∧
      ∀ i < 2, ∀ j < 2,
        at2 (gram_matrix wFeatsC3 true) i j =
          (∑ h ∈ Finset.range 1, ∑ w ∈ Finset.range 2,
            at3 wFeatsC3 h w i * at3 wFeatsC3 h w j) / ((1 * 2 * 2 : ℕ) : Scalar)) :=
  ⟨⟨by decide, by norm_num, by norm_num⟩,
    gram_matrix_spec wFeatsC3 1 2 2 (by decide) (by norm_num) (by norm_num)⟩

/-- C4: on a `(1, H, W, 3)` image, `tv_loss` equals the weight times the sum over the
3 channels of squared differences between vertically adjacent and horizontally
adjacent pixels.  The embedded implementation combines whole shifted tensors
elementwise (no per-pixel iteration); this theorem is the statement that it computes
the explicit per-pixel triple sum.  (The numeric comparison against the precomputed
`.npz` reference on the content test image lives outside the embedding: it needs the
data files absent from the repository.) -/
theorem tv_loss_spec (img : Tensor3) (w : Scalar) (H W : ℕ) (hs : shaped3 H W 3 img) :
    tv_loss [img] w =
      w * ((∑ c ∈ Finset.range 3, ∑ i ∈ Finset.range (H - 1), ∑ j ∈ Finset.range W,
          (at3 img (i + 1) j c - at3 img i j c) ^ 2) +
        (∑ c ∈ Finset.range 3, ∑ i ∈ Finset.range H, ∑ j ∈ Finset.range (W - 1),
          (at3 img i (j + 1) c - at3 img i j c) ^ 2)) := by
  have hH : img.length = H := hs.1
  have hVert : tvVert img =
      ∑ i ∈ Finset.range (H - 1), ∑ j ∈ Finset.range W, ∑ c ∈ Finset.range 3,
        (at3 img (i + 1) j c - at3 img i j c) ^ 2 := by
    rw [tvVert, zip_tail_sum (fun a b => sumSqDiff2 a b) ([] : Tensor2) img, hH]
    apply Finset.sum_congr rfl
    intro i hi
    have hi2 : i < H - 1 := Finset.mem_range.mp hi
    have hr1 := shaped3_getD hs (show i < H by omega)
    have hr2 := shaped3_getD hs (show i + 1 < H by omega)
    rw [sumSqDiff2_eq _ _ W 3 hr1 hr2]
    apply Finset.sum_congr rfl
    intro j hj
    apply Finset.sum_congr rfl
    intro c hc
    simp [at3, at2, at1]
  have hHoriz : tvHoriz img =
      ∑ i ∈ Finset.range H, ∑ j ∈ Finset.range (W - 1), ∑ c ∈ Finset.range 3,
        (at3 img i (j + 1) c - at3 img i j c) ^ 2 := by
    rw [tvHoriz, sum_map_getD img _ [], hH]
    apply Finset.sum_congr rfl
    intro i hi
    have hi2 : i < H := Finset.mem_range.mp hi
    have hr := shaped3_getD hs hi2
    rw [zip_tail_sum (fun a b => sumSqDiff1 a b) ([] : Tensor1) (img.getD i []), hr.1]
    apply Finset.sum_congr rfl
    intro j hj
    have hj2 : j < W - 1 := Finset.mem_range.mp hj
    rw [sumSqDiff1_eq _ _ 3 (shaped2_getD hr (show j < W by omega))
      (shaped2_getD hr (show j + 1 < W by omega))]
    apply Finset.sum_congr rfl
    intro c hc
    simp [at3, at2, at1]
  rw [tv_loss]
  simp only [List.map_cons, List.map_nil, List.sum_cons, List.sum_nil, add_zero]
  rw [hVert, hHoriz, triple_sum_comm (H - 1) W 3, triple_sum_comm H (W - 1) 3]

/-- Witness fixture for C4: a concrete `2 × 2 × 3` image. -/
def wImgC4 : Tensor3 := [[[1, 0, 2], [0, 1, 0]], [[2, 2, 2], [1, 1, 1]]]

/-- Witness for C4 at a concrete input: the `2 × 2 × 3` image satisfies the shape
hypothesis and the per-pixel triple-sum conclusion with weight 2. -/
theorem tv_loss_spec_wit :
    shaped3 2 2 3 wImgC4 ∧
    tv_loss [wImgC4] 2 =
      2 * ((∑ c ∈ Finset.range 3, ∑ i ∈ Finset.range (2 - 1), ∑ j ∈ Finset.range 2,
          (at3 wImgC4 (i + 1) j c - at3 wImgC4 i j c) ^ 2) +
        (∑ c ∈ Finset.range 3, ∑ i ∈ Finset.range 2, ∑ j ∈ Finset.range (2 - 1),
          (at3 wImgC4 i (j + 1) c - at3 wImgC4 i j c) ^ 2)) :=
  ⟨by decide, tv_loss_spec wImgC4 2 2 2 (by decide)⟩

/-- C6 counterexample: a run of `content_loss_test` in which the computed loss is far
from the reference — relative error 1/3, well beyond the stated 1e-3 tolerance — yet
the cell does not raise (it only prints the error), refuting the claim that every
reference check aborts on failure. -/
theorem content_loss_test_no_raise :
    (1 : Scalar) / 1000 < (content_loss_test 1 2).1 ∧ (content_loss_test 1 2).2 = false :=
  ⟨by norm_num [content_loss_test, rel_error], rfl⟩

/-- C6 amended: the fooling-image check raises exactly when the perturbed image is
not classified as the target, but the four loss/Gram reference checks never raise on
any input — they only print the computed relative error. -/
theorem reference_checks_amended :
    (∀ c s, (content_loss_test c s).2 = false) ∧
    (∀ c s, (gram_matrix_test c s).2 = false) ∧
    (∀ c s, (style_loss_test c s).2 = false) ∧
    (∀ c s, (tv_loss_test c s).2 = false) ∧
    (∀ sc ty, fooling_check sc ty = true ↔ np_argmax sc ≠ ty) := by
  refine ⟨fun _ _ => rfl, fun _ _ => rfl, fun _ _ => rfl, fun _ _ => rfl, fun sc ty => ?_⟩
  simp [fooling_check]

/-- C7: on an `N × H × W × C` tensor with offsets `0 ≤ ox < W` and `0 ≤ oy < H`,
`jitter(X, ox, oy)` is the circular shift of `X` along the width and height axes
(each pixel `(n, i, j)` of the result is pixel `(n, (i - oy) mod H, (j - ox) mod W)`
of `X`, stated with the equivalent non-negative residues `i + (H - oy)` and
`j + (W - ox)`); `jitter(jitter(X, ox, oy), -ox, -oy) = X`; and `jitter(X, 0, 0) = X`. -/
theorem jitter_spec (X : Tensor4) (N H W C : ℕ) (hs : shaped4 N H W C X)
    (ox oy : ℕ) (hox : ox < W) (hoy : oy < H) :
    jitter X (ox : ℤ) (oy : ℤ) =
      X.map (fun img => (img.map (fun row => row.rotate (W - ox))).rotate (H - oy)) ∧
    (∀ n < N, ∀ i < H, ∀ j < W,
      pix (jitter X (ox : ℤ) (oy : ℤ)) n i j =
        pix X n ((i + (H - oy)) % H) ((j + (W - ox)) % W)) ∧
    jitter (jitter X (ox : ℤ) (oy : ℤ)) (-(ox : ℤ)) (-(oy : ℤ)) = X ∧
    jitter X 0 0 = X := by
  refine ⟨jitter_eq_rotate hs ox oy hox hoy, ?_, jitter_inv hs ox oy hox hoy, ?_⟩
  · intro n hn i hi j hj
    exact jitter_entry hs ox oy hox hoy n i j hn hi hj
  · simp [jitter]

/-- Witness fixture for C7: a concrete `1 × 2 × 2 × 1` tensor. -/
def wXC7 : Tensor4 := [[[[1], [2]], [[3], [4]]]]

/-- Witness for C7 at a concrete input: offsets `ox = oy = 1` on the `1 × 2 × 2 × 1`
tensor satisfy the hypotheses and the rotation / inverse / identity conclusion. -/
theorem jitter_spec_wit :
    (shaped4 1 2 2 1 wXC7 ∧ 1 < 2 ∧ 1 < 2) ∧
    (jitter wXC7 (1 : ℤ) (1 : ℤ) =
      wXC7.map (fun img => (img.map (fun row => row.rotate (2 - 1))).rotate (2 - 1)) ∧
    (∀ n < 1, ∀ i < 2, ∀ j < 2,
      pix (jitter wXC7 (1 : ℤ) (1 : ℤ)) n i j =
        pix wXC7 n ((i + (2 - 1)) % 2) ((j + (2 - 1)) % 2)) ∧
    jitter (jitter wXC7 (1 : ℤ) (1 : ℤ)) (-(1 : ℤ)) (-(1 : ℤ)) = wXC7 ∧
    jitter wXC7 0 0 = wXC7) :=
  ⟨⟨by decide, by norm_num, by norm_num⟩,
    jitter_spec wXC7 1 2 2 1 (by decide) 1 1 (by norm_num) (by norm_num)⟩

/-- C10: `make_fooling_image` never writes to its argument `X`: all updates go to
the copy `X_fooling`, and the caller's array after the loop equals its value before. -/
theorem make_fooling_image_frame (X : Tensor4) (scores : Tensor4 → Tensor1)
    (gstep : Tensor4 → Tensor4) (target_y cap : ℕ) :
    (make_fooling_image X scores gstep target_y cap).X = X := by
  rw [make_fooling_image, fool_steps_X]
  rfl

end NetVis
